import Mathlib

/-!
Verification of the Timeline & Filter-Graph Compositor of the
ReviewPocketShorts repository (`generate_video_from_api.py`), against its
natural-language specification.

The Python source is shallowly embedded: pure fragments become Lean
functions over `List`, `String`, `ℤ`, `ℕ`, and `ℚ` (Python floats appear
only in exactly-representable arithmetic — clamping, division — so `ℚ`
models them faithfully for the properties at stake); file/process I/O is
abstracted to explicit parameters (e.g. "the srt file exists" becomes a
`Bool`, a network fetch becomes a `String → Option String`).  Each
definition carries a comment pointing to the source lines it embeds.
-/

namespace RPS

/-! ## Python string helpers

`str.strip`, `sub in s`, `str.split()` and `" ".join` as used by the
source, modelled at character level.  Python's `str.strip()` removes
leading and trailing whitespace characters. -/

/-- Whitespace characters recognised by Python's `str.strip()` / `str.split()`
(ASCII range, which is all the source ever feeds them). -/
def isPyWs (c : Char) : Bool :=
  c = ' ' || c = '\t' || c = '\n' || c = '\r' || c = '\x0b' || c = '\x0c'

/-- Model of Python `s.strip()`. -/
def pyStrip (s : String) : String :=
  ⟨((s.data.dropWhile isPyWs).reverse.dropWhile isPyWs).reverse⟩

/-- Model of Python `sub in s` (substring containment) on char lists. -/
def listContainsSub (sub : List Char) : List Char → Bool
  | [] => sub.isPrefixOf []
  | c :: cs => sub.isPrefixOf (c :: cs) || listContainsSub sub cs

/-- Model of Python `sub in s` on strings. -/
def pyContains (s sub : String) : Bool :=
  listContainsSub sub.data s.data

/-- Model of Python `s.startswith(pre)`. -/
def pyStartsWith (s pre : String) : Bool :=
  pre.data.isPrefixOf s.data

/-- Model of Python `" ".join(ws)`. -/
def joinSp : List String → String
  | [] => ""
  | [w] => w
  | w :: ws => w ++ " " ++ joinSp ws

/-- Character-level worker for Python `s.split()`: split on whitespace runs,
dropping empty fragments.  `acc` holds the current word reversed. -/
def pySplitChars : List Char → List Char → List (List Char)
  | [], [] => []
  | [], acc => [acc.reverse]
  | c :: cs, acc =>
      if isPyWs c then
        if acc = [] then pySplitChars cs []
        else acc.reverse :: pySplitChars cs []
      else pySplitChars cs (c :: acc)

/-- Model of Python `s.split()` (whitespace split, no empty words). -/
def pySplitWs (s : String) : List String :=
  (pySplitChars s.data []).map fun l => ⟨l⟩

/-! ## Duration Resolver

`build_slideshow_ffmpeg`, lines 492–501:

    try:
        dur = float(probe.stdout.strip())
    except Exception:
        dur = 24.0
    dur = max(18.0, min(40.0, dur))
    per = dur / max(1, len(image_files))

The ffprobe output parse is abstracted to an `Option ℚ` (`none` models the
`except` path: missing or non-numeric probe output). -/

/-- Lines 496–499: the parsed probe output, defaulting to 24.0 on failure. -/
def parseProbeDuration : Option ℚ → ℚ
  | some d => d
  | none => 24

/-- Line 500: `dur = max(18.0, min(40.0, dur))`. -/
def clampDur (d : ℚ) : ℚ := max 18 (min 40 d)

/-- The resolved total duration for a given probe outcome. -/
def resolveTotal (probe : Option ℚ) : ℚ := clampDur (parseProbeDuration probe)

/-- Line 501: `per = dur / max(1, len(image_files))`. -/
def perSlide (probe : Option ℚ) (n : ℕ) : ℚ :=
  resolveTotal probe / (max 1 n : ℕ)

/-! ## Render Plan Compiler: input-index assignment

`build_slideshow_ffmpeg`, lines 503–567.  Inputs are appended to the
ffmpeg command in this order: one `-i` per image (lines 504–506), the
narration (line 508), the music if present (lines 510–511), the logo if
present (line 546).  The filter graph then refers to them by position:

    logo_idx = len(image_files) + (2 if (music_path and ...) else 1)   -- line 547
    a_narr  = f"[{len(image_files)}:a]"                                -- line 561
    a_music = f"[{len(image_files)+1}:a]"                              -- line 562
-/

/-- Logical roles of the ffmpeg inputs. -/
inductive InputRole where
  | image (i : ℕ)
  | narration
  | music
  | logo
deriving DecidableEq, Repr

/-- The ffmpeg input list in the order the source appends `-i` flags:
images (lines 504–506), narration (line 508), music when present
(lines 510–511), logo when present (line 546). -/
def ffmpegInputs (n : ℕ) (music logo : Bool) : List InputRole :=
  (List.range n).map InputRole.image ++ [InputRole.narration]
    ++ (if music then [InputRole.music] else [])
    ++ (if logo then [InputRole.logo] else [])

/-- Narration input index used by the filter graph (lines 561, 566). -/
def narrationIdx (n : ℕ) : ℕ := n

/-- Music input index used by the filter graph (line 562). -/
def musicIdx (n : ℕ) : ℕ := n + 1

/-- Logo input index, line 547:
`len(image_files) + (2 if (music_path and os.path.exists(music_path)) else 1)`. -/
def logoIdx (n : ℕ) (music : Bool) : ℕ := n + (if music then 2 else 1)

/-! ## Render Plan Compiler: filter graph

The source builds `filter_complex` as a string; the embedding keeps the
same construction order but as a list of typed nodes, so that node
presence/absence is structural.  Each constructor corresponds to one
filter fragment of `build_slideshow_ffmpeg`. -/

/-- Video filter nodes, in source order of construction. -/
inductive VNode where
  /-- Lines 515–522: `[i:v]scale=1080:1920:...,pad=...,setsar=1[vi]`. -/
  | scalePad (inputIdx : ℕ)
  /-- Lines 523–524: `[v0]...[vN-1]concat=n=N:v=1:a=0[vout]`. -/
  | concat (n : ℕ)
  /-- Line 537: `[vout]subtitles={srt_path}:force_style=...[vsub]`. -/
  | subtitleBurn (srt : String)
  /-- Line 553: `[logo_idx:v]scale=LOGO_WIDTH:-1,format=rgba,colorchannelmixer=aa=LOGO_OPACITY[logo]`. -/
  | logoScale (inputIdx : ℕ)
  /-- Line 554: `{v_current}[logo]overlay=x:y[vlogo]`. -/
  | logoOverlay
deriving DecidableEq, Repr

/-- Audio filter nodes. -/
inductive ANode where
  /-- Line 563: `[music_idx:a]volume=0.15[am]`. -/
  | volumeMusic (inputIdx : ℕ)
  /-- Line 563: `[narr_idx:a][am]amix=inputs=2:duration=first:dropout_transition=2[aout]`. -/
  | amix (narrIdx : ℕ)
  /-- Line 566: `[narr_idx:a]anull[aout]`. -/
  | anull (narrIdx : ℕ)
deriving DecidableEq, Repr

/-- The compiled render plan: input list, video and audio node chains, the
final stream labels mapped by `-map` (lines 571–572), and any warning
messages the builder emits (the source emits none). -/
structure SlideshowPlan where
  inputs : List InputRole
  vnodes : List VNode
  vLabel : String
  anodes : List ANode
  aLabel : String
  warnings : List String
deriving DecidableEq, Repr

/-- Embedding of the plan-construction part of `build_slideshow_ffmpeg`
(lines 503–567).  `n` is `len(image_files)`; `music` is
`music_path and os.path.exists(music_path)`; `logo` is
`LOGO_PATH and os.path.exists(LOGO_PATH)` (line 543); `showCaptions` is
`SHOW_CAPTIONS`; `srtExists` is `os.path.exists(srt_path)` (line 526). -/
def buildSlideshowPlan (n : ℕ) (srtPath : String)
    (music logo showCaptions srtExists : Bool) : SlideshowPlan :=
  -- lines 515–524: per-image chains then concat
  let vnodes := (List.range n).map VNode.scalePad ++ [VNode.concat n]
  -- lines 526–540: burn subtitles only if enabled AND file exists
  let st :=
    if showCaptions && srtExists then
      (vnodes ++ [VNode.subtitleBurn srtPath], "[vsub]")
    else (vnodes, "[vout]")
  -- lines 543–556: optional logo overlay
  let st2 :=
    if logo then
      (st.1 ++ [VNode.logoScale (logoIdx n music), VNode.logoOverlay], "[vlogo]")
    else st
  -- lines 560–567: audio mix
  let anodes :=
    if music then [ANode.volumeMusic (musicIdx n), ANode.amix (narrationIdx n)]
    else [ANode.anull (narrationIdx n)]
  { inputs := ffmpegInputs n music logo
    vnodes := st2.1
    vLabel := st2.2
    anodes := anodes
    aLabel := "[aout]"
    warnings := [] }

/-! ## Asset loop of `main` (lines 642–660)

    for idx, url in enumerate([hero] + photos[1:6], start=1):
        try:
            fp = os.path.join(OUTPUT_DIR, f"frame_{idx}.png")
            fetch_image_as_png(url, fp, headers, prefer_highres=PREFER_HIGHRES)
            img_files.append(fp)
        except Exception as e:
            dprint(f"Image skip {url}: {e}")
    if not img_files:
        raise RuntimeError("No images to build video")
    build_slideshow_ffmpeg(img_files, ...)

A fetch attempt is abstracted to `fetch : String → Option String`
(`none` models the exception path, `some fp` the written file). -/

/-- Line 646: the URLs the loop iterates over, `[hero] + photos[1:6]`. -/
def imageCandidates (hero : String) (photos : List String) : List String :=
  hero :: (photos.drop 1).take 5

/-- Lines 646–652: the surviving normalized images; failed fetches are
skipped by the `except` clause. -/
def downloadImages (fetch : String → Option String)
    (hero : String) (photos : List String) : List String :=
  (imageCandidates hero photos).filterMap fetch

/-- Lines 642–660 of `main`: normalize assets, fail with
"No images to build video" when none survive, otherwise compile the plan. -/
def assembleSlideshow (fetch : String → Option String)
    (hero : String) (photos : List String) (srtPath : String)
    (music logo showCaptions srtExists : Bool) : Except String SlideshowPlan :=
  let imgs := downloadImages fetch hero photos
  if imgs = [] then Except.error "No images to build video"
  else Except.ok (buildSlideshowPlan imgs.length srtPath music logo showCaptions srtExists)

/-! ## Asset Normalizer: `fetch_image_as_png` (lines 136–168)

The PIL image is abstracted to its colour mode and EXIF orientation tag
(tag 1 = already upright).  Line 21 of the source imports
`Image, ImageDraw, ImageFont, ImageFilter` from PIL — and nothing else —
so the `ImageOps.exif_transpose(im)` call at line 155 raises `NameError`,
which the surrounding `except Exception: pass` swallows. -/

/-- PIL colour modes the source distinguishes (line 160 mentions P/LA/CMYK). -/
inductive ImgMode where
  | RGB
  | RGBA
  | P
  | LA
  | CMYK
  | L
deriving DecidableEq, Repr

/-- Abstraction of a decoded PIL image: colour mode plus EXIF orientation
tag (1 = displays upright as stored). -/
structure PilImg where
  mode : ImgMode
  orientation : ℕ
deriving DecidableEq, Repr

/-- Line 21: `from PIL import Image, ImageDraw, ImageFont, ImageFilter`. -/
def pilImportedNames : List String :=
  ["Image", "ImageDraw", "ImageFont", "ImageFilter"]

/-- What `ImageOps.exif_transpose` would do: rotate pixels per the
orientation tag and reset the tag, so the result displays upright. -/
def exifTranspose (im : PilImg) : PilImg := { im with orientation := 1 }

/-- Lines 151–167 of `fetch_image_as_png`: the decoded image's
normalization before saving.  The `try: im = ImageOps.exif_transpose(im)
except Exception: pass` block (lines 154–157) only has an effect when the
name `ImageOps` is in scope; the import at line 21 does not bring it in,
so the `NameError` is swallowed and the image is left untouched. -/
def fetchNormalize (im : PilImg) : PilImg :=
  let im1 := if pilImportedNames.contains "ImageOps" then exifTranspose im else im
  -- lines 160–164: ensure RGB
  if im1.mode ≠ ImgMode.RGB && im1.mode ≠ ImgMode.RGBA then { im1 with mode := ImgMode.RGB }
  else if im1.mode = ImgMode.RGBA then { im1 with mode := ImgMode.RGB }
  else im1

/-! ## Cue Normalizer: tick-event source

`synthesize_tts_with_subs`, lines 338–345:

    if t == "sentenceboundary":
        start = int(chunk.get("offset", 0))
        dur   = int(chunk.get("duration", 0))
        end   = start + max(dur, 1)
        txt   = (chunk.get("text") or "").strip()
        if txt:
            cues.append((start, end, txt))

and `_ticks_to_vtt_ts` (lines 312–319) converts ticks at 10,000,000 per
second. -/

/-- A SentenceBoundary event from the TTS stream. -/
structure TickEvent where
  offset : ℤ
  duration : ℤ
  text : String
deriving DecidableEq, Repr

/-- Lines 330–345: the cue list collected from the event stream
(tick-valued start and end, stripped text, empty-text events dropped). -/
def sentenceCues (events : List TickEvent) : List (ℤ × ℤ × String) :=
  events.foldl
    (fun acc ev =>
      if pyStrip ev.text ≠ "" then
        acc ++ [(ev.offset, ev.offset + max ev.duration 1, pyStrip ev.text)]
      else acc)
    []

/-- Line 314: `total_seconds = ticks / 10_000_000.0`. -/
def ticksToSeconds (t : ℤ) : ℚ := (t : ℚ) / 10000000

/-! ## Thumbnail Compositor word wrap

`create_thumbnail`, lines 397–410:

    words = title.split()
    lines, cur = [], []
    max_w = int(W*0.92)
    for w in words:
        trial = " ".join(cur+[w])
        if draw.textlength(trial, font=title_font) <= max_w:
            cur.append(w)
        else:
            lines.append(" ".join(cur)); cur=[w]
    if cur: lines.append(" ".join(cur))
    lines = lines[:3]

The font metric `draw.textlength(·, font=title_font)` is abstracted to an
arbitrary `measure : String → ℚ`. -/

/-- Line 400: `max_w = int(W*0.92)` with `W = 1280`, i.e. `int(1177.6)`. -/
def thumbMaxW : ℚ := 1177

/-- One iteration of the wrap loop (lines 401–406). -/
def wrapStep (measure : String → ℚ) (st : List String × List String)
    (w : String) : List String × List String :=
  let trial := joinSp (st.2 ++ [w])
  if measure trial ≤ thumbMaxW then (st.1, st.2 ++ [w])
  else (st.1 ++ [joinSp st.2], [w])

/-- Lines 398–408: the emitted caption lines of the thumbnail title. -/
def thumbWrap (measure : String → ℚ) (title : String) : List String :=
  let words := pySplitWs title
  let st := words.foldl (wrapStep measure) ([], [])
  let lines := if st.2 ≠ [] then st.1 ++ [joinSp st.2] else st.1
  lines.take 3

/-! ## Cue Normalizer: `vtt_to_srt` (lines 264–309)

The converter reads the VTT file as a list of lines (trailing newlines
stripped, line 269), splits it into blocks at blank lines (lines 272–279),
extracts from each block a time-range line matching

    ts_re = re.compile(r"(?P<s>\d+:\d+:\d+\.\d+)\s*-->\s*(?P<e>\d+:\d+:\d+\.\d+)")

(line 283) and the non-empty text lines not starting with `WEBVTT`
(lines 292–300), rewrites the decimal separator from `.` to `,`
(lines 285–287), and emits numbered SRT blocks (lines 301–306).

The regex search is embedded as a maximal-munch scanner: every `\d+` in
the pattern is followed by a non-digit element and `\s*` by a
non-whitespace element, so greedy matching without backtracking computes
exactly the regex's match and groups. -/

/-- Decimal digits of `n`, as characters (model of Python `str(idx)`). -/
def natDigitsChars (n : ℕ) : List Char :=
  if _h : n < 10 then [Nat.digitChar n]
  else natDigitsChars (n / 10) ++ [Nat.digitChar (n % 10)]
decreasing_by exact Nat.div_lt_self (by omega) (by omega)

/-- Model of Python `str(idx)` for a natural number. -/
def natToStr (n : ℕ) : String := ⟨natDigitsChars n⟩

/-- Numeric value of a run of decimal digit characters. -/
def charsVal (cs : List Char) : ℕ :=
  cs.foldl (fun a c => a * 10 + (c.toNat - 48)) 0

/-- A timestamp of the shape matched by `ts_re`, kept as its four digit
runs (hours, minutes, seconds, milliseconds). -/
structure VttTs where
  hd : List Char
  md : List Char
  sd : List Char
  msd : List Char
deriving DecidableEq, Repr

/-- Well-formedness of a timestamp in the spec's `H:MM:SS.mmm` shape. -/
def VttTs.wf (t : VttTs) : Prop :=
  t.hd ≠ [] ∧ t.md.length = 2 ∧ t.sd.length = 2 ∧ t.msd.length = 3 ∧
    (∀ c ∈ t.hd, c.isDigit) ∧ (∀ c ∈ t.md, c.isDigit) ∧
    (∀ c ∈ t.sd, c.isDigit) ∧ (∀ c ∈ t.msd, c.isDigit)

instance (t : VttTs) : Decidable t.wf := by
  unfold VttTs.wf; infer_instance

/-- The characters of the timestamp, with decimal separator `sep`. -/
def VttTs.renderChars (t : VttTs) (sep : Char) : List Char :=
  t.hd ++ ':' :: t.md ++ ':' :: t.sd ++ sep :: t.msd

/-- The timestamp as a string, with decimal separator `sep`. -/
def VttTs.render (t : VttTs) (sep : Char) : String := ⟨t.renderChars sep⟩

/-- The instant denoted by the timestamp, in milliseconds. -/
def VttTs.ms (t : VttTs) : ℕ :=
  ((charsVal t.hd * 60 + charsVal t.md) * 60 + charsVal t.sd) * 1000 + charsVal t.msd

/-- Maximal-munch `\d+`: fails when no digit is at the head. -/
def scanDigits (cs : List Char) : Option (List Char × List Char) :=
  let ds := cs.takeWhile Char.isDigit
  if ds = [] then none else some (ds, cs.dropWhile Char.isDigit)

/-- A single literal character of the pattern (the `:` and decimal
separators). -/
def scanSep (sep : Char) : List Char → Option (List Char)
  | c :: r => if c = sep then some r else none
  | [] => none

/-- Maximal-munch `\d+:\d+:\d+SEP\d+` at the head of `cs`. -/
def scanTsAt (sep : Char) (cs : List Char) : Option (VttTs × List Char) :=
  (scanDigits cs).bind fun p1 =>
  (scanSep ':' p1.2).bind fun r2 =>
  (scanDigits r2).bind fun p2 =>
  (scanSep ':' p2.2).bind fun r4 =>
  (scanDigits r4).bind fun p3 =>
  (scanSep sep p3.2).bind fun r6 =>
  (scanDigits r6).bind fun p4 =>
  some (⟨p1.1, p2.1, p3.1, p4.1⟩, p4.2)

/-- The literal `-->` of the pattern. -/
def scanArrow : List Char → Option (List Char)
  | '-' :: '-' :: '>' :: r => some r
  | _ => none

/-- The full pattern `TS\s*-->\s*TS` at the head of `cs`. -/
def scanPairAt (sep : Char) (cs : List Char) : Option (VttTs × VttTs × List Char) :=
  (scanTsAt sep cs).bind fun q1 =>
  (scanArrow (q1.2.dropWhile isPyWs)).bind fun r2 =>
  (scanTsAt sep (r2.dropWhile isPyWs)).bind fun q2 =>
  some (q1.1, q2.1, q2.2)

/-- Model of `ts_re.search(ln)`: try the pattern at each position, left to
right, and return the two captured timestamps of the first match. -/
def searchPair (sep : Char) : List Char → Option (VttTs × VttTs)
  | [] => none
  | c :: cs =>
    match scanPairAt sep (c :: cs) with
    | some (t1, t2, _) => some (t1, t2)
    | none => searchPair sep cs

/-- Lines 285–287, `fix_ts`: `ts.replace(".", ",")` on one character. -/
def fixChar (c : Char) : Char := if c = '.' then ',' else c

/-- Lines 285–287: `fix_ts(ts)` replaces every `.` with `,`. -/
def fixTs (s : String) : String := ⟨s.data.map fixChar⟩

/-- One step of the blank-line block splitter (lines 273–277):
`if ln.strip() == "" and buf: entries.append(buf); buf = []
else: buf.append(ln)`. -/
def splitBlocksStep (st : List (List String) × List String) (ln : String) :
    List (List String) × List String :=
  if pyStrip ln = "" ∧ st.2 ≠ [] then (st.1 ++ [st.2], [])
  else (st.1, st.2 ++ [ln])

/-- Lines 271–279: split lines into cue blocks at blank lines. -/
def splitBlocks (lines : List String) : List (List String) :=
  let st := lines.foldl splitBlocksStep ([], [])
  if st.2 = [] then st.1 else st.1 ++ [st.2]

/-- One line of a block, as scanned by lines 292–300: a line containing
`-->` updates `times` when the pattern matches; otherwise a non-empty line
not starting with `WEBVTT` is collected as text. -/
def vttChunkStep (st : Option String × List String) (ln : String) :
    Option String × List String :=
  if pyContains ln "-->" then
    match searchPair '.' ln.data with
    | some (t1, t2) =>
      (some (fixTs (t1.render '.') ++ " --> " ++ fixTs (t2.render '.')), st.2)
    | none => st
  else if ln ≠ "" ∧ pyStartsWith ln "WEBVTT" = false then (st.1, st.2 ++ [ln])
  else st

/-- Lines 289–300 applied to one block, returning `(times, text_lines)`
when both are present (line 301), else dropping the block. -/
def vttChunkParse (chunk : List String) : Option (String × List String) :=
  let st := chunk.foldl vttChunkStep (none, [])
  match st.1 with
  | some times => if st.2 ≠ [] then some (times, st.2) else none
  | none => none

/-- Lines 301–306: append one converted block to the output (`str(idx)`,
the rewritten time range, the text lines, a blank line) and advance the
index; blocks without a time range or without text leave the state
unchanged. -/
def vttToSrtStep (st : ℕ × List String) (chunk : List String) : ℕ × List String :=
  match vttChunkParse chunk with
  | some (times, texts) => (st.1 + 1, st.2 ++ [natToStr st.1, times] ++ texts ++ [""])
  | none => st

/-- Lines 281–306 of `vtt_to_srt`: numbered SRT blocks, one blank line
after each, indices starting at 1. -/
def vttToSrt (lines : List String) : List String :=
  ((splitBlocks lines).foldl vttToSrtStep (1, [])).2

/-! ## Structured block-subtitle sources and cue extraction

A well-formed block-subtitle source in the period convention is given
structurally: an optional leading format-declaration line (`WEBVTT`), then
blocks of one `H:MM:SS.mmm --> H:MM:SS.mmm` time-range line followed by
one or more text lines, with one blank line after each block. -/

/-- One cue block of a block-subtitle source. -/
structure VttBlock where
  start : VttTs
  stop : VttTs
  text : List String
deriving DecidableEq, Repr

/-- A caption cue at millisecond precision. -/
structure Cue where
  startMs : ℕ
  endMs : ℕ
  text : List String
deriving DecidableEq, Repr

/-- The cue a block denotes. -/
def cueOf (b : VttBlock) : Cue := ⟨b.start.ms, b.stop.ms, b.text⟩

/-- A text line that is usable in a block: not blank, not containing the
time-range separator, not a format declaration. -/
def goodTextLine (ln : String) : Prop :=
  pyStrip ln ≠ "" ∧ pyContains ln "-->" = false ∧ pyStartsWith ln "WEBVTT" = false

instance (ln : String) : Decidable (goodTextLine ln) := by
  unfold goodTextLine; infer_instance

/-- Well-formedness of one block. -/
def VttBlock.wf (b : VttBlock) : Prop :=
  b.start.wf ∧ b.stop.wf ∧ b.text ≠ [] ∧ ∀ ln ∈ b.text, goodTextLine ln

instance (b : VttBlock) : Decidable b.wf := by
  unfold VttBlock.wf; infer_instance

/-- Well-formedness of a block-subtitle source. -/
def wellFormedVtt (blocks : List VttBlock) : Prop := ∀ b ∈ blocks, b.wf

instance (blocks : List VttBlock) : Decidable (wellFormedVtt blocks) := by
  unfold wellFormedVtt; infer_instance

/-- The time-range line of a block in the period convention. -/
def tsLine (b : VttBlock) : String :=
  b.start.render '.' ++ " --> " ++ b.stop.render '.'

/-- The lines of one rendered block (time-range line, then text lines). -/
def renderBlock (b : VttBlock) : List String := tsLine b :: b.text

/-- Blocks laid out as lines with one blank line after each block. -/
def blockJoin (bs : List (List String)) : List String :=
  (bs.map (· ++ [""])).flatten

/-- The full textual source: optional `WEBVTT` declaration, then blocks. -/
def renderVtt (header : Bool) (blocks : List VttBlock) : List String :=
  blockJoin ((if header then [["WEBVTT"]] else []) ++ blocks.map renderBlock)

/-- Modelled from the spec: cue extraction from the comma-decimal-separator
(SRT) convention, which has no parser in the source (src only writes SRT;
ffmpeg consumes it).  Per spec section 4.2, a block's time-range line is
located, the numeric index line before it is ignored, subsequent lines are
the text, and blocks lacking a valid time range or lacking text are
dropped. -/
def srtFindTime : List String → Option (VttTs × VttTs × List String)
  | [] => none
  | ln :: rest =>
    match searchPair ',' ln.data with
    | some (t1, t2) => some (t1, t2, rest)
    | none => srtFindTime rest

/-- Modelled from the spec: the cue of one comma-convention block. -/
def srtBlockCue (chunk : List String) : Option Cue :=
  match srtFindTime chunk with
  | none => none
  | some (t1, t2, rest) => if rest = [] then none else some ⟨t1.ms, t2.ms, rest⟩

/-- Modelled from the spec: all cues of a comma-convention source. -/
def srtCues (lines : List String) : List Cue :=
  (splitBlocks lines).filterMap srtBlockCue

/-- The comma-convention time-range line `vtt_to_srt` emits for a block. -/
def commaTimes (b : VttBlock) : String :=
  fixTs (b.start.render '.') ++ " --> " ++ fixTs (b.stop.render '.')

/-- The SRT blocks `vtt_to_srt` emits for the given cue blocks, numbering
from `i`. -/
def srtChunksFrom : ℕ → List VttBlock → List (List String)
  | _, [] => []
  | i, b :: bs => ([natToStr i, commaTimes b] ++ b.text) :: srtChunksFrom (i + 1) bs

/-! ## Concrete data used by counterexamples and witnesses -/

/-- The C8 claim as stated, evaluated at one configuration: a burn node is
present iff captions are enabled and the cue source exists, and a warning
is surfaced when captions are enabled without a cue source. -/
def captionClaimAt (n : ℕ) (srtPath : String)
    (music logo showCaptions srtExists : Bool) : Prop :=
  (VNode.subtitleBurn srtPath
      ∈ (buildSlideshowPlan n srtPath music logo showCaptions srtExists).vnodes
    ↔ showCaptions = true ∧ srtExists = true) ∧
  (showCaptions = true → srtExists = false →
    (buildSlideshowPlan n srtPath music logo showCaptions srtExists).warnings ≠ [])

/-- The abstract font metric used in the C9 counterexample: 200 pixels
per character. -/
def wideMeasure (s : String) : ℚ := ((200 * s.length : ℕ) : ℚ)

/-- A concrete timestamp `00:00:01.000` for the C6 witness. -/
def demoTs1 : VttTs := ⟨['0', '0'], ['0', '0'], ['0', '1'], ['0', '0', '0']⟩

/-- A concrete timestamp `00:00:02.500` for the C6 witness. -/
def demoTs2 : VttTs := ⟨['0', '0'], ['0', '0'], ['0', '2'], ['5', '0', '0']⟩

/-- A concrete one-cue block-subtitle source for the C6 witness. -/
def demoBlocks : List VttBlock := [⟨demoTs1, demoTs2, ["Hello"]⟩]

/-! # Theorems -/

/-- C2: for every measured narration duration `d`, the Duration Resolver
returns `total = clamp(d, 18, 40)`, so `18 ≤ total ≤ 40` always,
`total = d` whenever `18 ≤ d ≤ 40`, `total = 18` at `d = 10`,
`total = 40` at `d = 50`, and `per_slide = total / n` for the slide
count `n ≥ 1`. -/
theorem duration_resolver_clamps (d : ℚ) (n : ℕ) :
    18 ≤ clampDur d ∧ clampDur d ≤ 40 ∧
    (18 ≤ d → d ≤ 40 → clampDur d = d) ∧
    clampDur 10 = 18 ∧ clampDur 50 = 40 ∧
    resolveTotal (some d) = clampDur d ∧
    (1 ≤ n → perSlide (some d) n = clampDur d / n) := by
  refine ⟨le_max_left _ _, max_le (by norm_num) (min_le_left _ _), ?_,
    by decide, by decide, rfl, ?_⟩
  · intro h18 h40
    unfold clampDur
    rw [min_eq_right h40, max_eq_right h18]
  · intro hn
    unfold perSlide
    rw [max_eq_right hn]
    rfl

/-- C2 witness: the spec scenario of 3 slides and a 25-second narration. -/
theorem duration_resolver_clamps_witness :
    clampDur 25 = 25 ∧ perSlide (some 25) 3 = 25 / 3 := by
  obtain ⟨-, -, h3, -, -, -, h7⟩ := duration_resolver_clamps 25 3
  have he : clampDur 25 = 25 := h3 (by decide) (by decide)
  refine ⟨he, ?_⟩
  rw [h7 (by decide), he]
  norm_num

/-- C10: when the narration duration cannot be parsed from the probe
output, the plan compiler substitutes the default 24.0 — inside the
clamp range — and the per-slide division has a nonzero denominator. -/
theorem probe_parse_failure_defaults (n : ℕ) :
    parseProbeDuration none = 24 ∧ resolveTotal none = 24 ∧
    (18 : ℚ) ≤ resolveTotal none ∧ resolveTotal none ≤ 40 ∧
    ((max 1 n : ℕ) : ℚ) ≠ 0 ∧
    perSlide none n = 24 / ((max 1 n : ℕ) : ℚ) := by
  refine ⟨rfl, by decide, by decide, by decide, ?_, ?_⟩
  · have h : (0 : ℚ) < ((max 1 n : ℕ) : ℚ) := by
      exact_mod_cast Nat.lt_of_lt_of_le Nat.zero_lt_one (Nat.le_max_left 1 n)
    exact ne_of_gt h
  · unfold perSlide
    rw [show resolveTotal none = 24 by decide]

/-- C10 witness: the default applied with three slides. -/
theorem probe_parse_failure_defaults_witness :
    parseProbeDuration none = 24 ∧ resolveTotal none = 24 :=
  ⟨(probe_parse_failure_defaults 3).1, (probe_parse_failure_defaults 3).2.1⟩

/-- C1: the input-index assignment of the Render Plan Compiler maps image
`i` to index `i`, the narration to index `N`, the music to index `N+1`
exactly when music is present, and the logo to index `N+1` plus one more
when music is present, exactly when the logo is present; the logo index
genuinely depends on which optional roles exist. -/
theorem input_index_table (n : ℕ) (music logo : Bool)
    (hn1 : 1 ≤ n) (hn5 : n ≤ 5) :
    (∀ i, i < n → (ffmpegInputs n music logo)[i]? = some (InputRole.image i)) ∧
    (ffmpegInputs n music logo)[narrationIdx n]? = some InputRole.narration ∧
    (music = true ↔ (ffmpegInputs n music logo)[musicIdx n]? = some InputRole.music) ∧
    (logo = true ↔
      (ffmpegInputs n music logo)[logoIdx n music]? = some InputRole.logo) ∧
    logoIdx n music = n + 1 + (if music then 1 else 0) ∧
    logoIdx n true ≠ logoIdx n false := by
  interval_cases n <;> cases music <;> cases logo <;> decide

/-- C1 witness: the spec scenario of 5 images with music and logo present,
yielding indices image0..4 at 0..4, narration 5, music 6, logo 7. -/
theorem input_index_table_witness :
    ((∀ i, i < 5 → (ffmpegInputs 5 true true)[i]? = some (InputRole.image i)) ∧
      (ffmpegInputs 5 true true)[narrationIdx 5]? = some InputRole.narration ∧
      (true = true ↔ (ffmpegInputs 5 true true)[musicIdx 5]? = some InputRole.music) ∧
      (true = true ↔ (ffmpegInputs 5 true true)[logoIdx 5 true]? = some InputRole.logo) ∧
      logoIdx 5 true = 5 + 1 + (if true then 1 else 0) ∧
      logoIdx 5 true ≠ logoIdx 5 false) ∧
    narrationIdx 5 = 5 ∧ musicIdx 5 = 6 ∧ logoIdx 5 true = 7 :=
  ⟨input_index_table 5 true true (by decide) (by decide), by decide⟩

/-- C7 (code bug): the source's `try: im = ImageOps.exif_transpose(im)`
raises `NameError` because `ImageOps` is never imported (line 21), and the
`except Exception: pass` swallows it, so a sideways image (EXIF
orientation tag 6) is persisted without orientation correction; the colour
conversion to RGB does happen. -/
theorem exif_orientation_not_applied :
    (fetchNormalize ⟨ImgMode.RGB, 6⟩).orientation = 6 ∧
    (fetchNormalize ⟨ImgMode.RGB, 6⟩).orientation ≠ 1 ∧
    pilImportedNames.contains "ImageOps" = false ∧
    (∀ im : PilImg, (fetchNormalize im).mode = ImgMode.RGB) := by
  refine ⟨by decide, by decide, by decide, ?_⟩
  intro im
  obtain ⟨m, o⟩ := im
  cases m <;> rfl

/-- C4 (code bug): the loop at line 646 iterates over
`[hero] + photos[1:6]`, which is six URLs when six or more photos exist,
although the comment at line 642 says "Download up to 5 images" and the
spec caps the slide count at 5. -/
theorem six_images_attempted :
    (imageCandidates "p0" ["p0", "p1", "p2", "p3", "p4", "p5"]).length = 6 ∧
    ¬ (imageCandidates "p0" ["p0", "p1", "p2", "p3", "p4", "p5"]).length ≤ 5 := by
  decide

/-- C5 counterexample: an event whose text is the non-empty string
consisting of one space is dropped by the source (`.strip()` empties it),
contradicting the claim that every event with non-empty text yields a
cue. -/
theorem whitespace_text_event_dropped :
    sentenceCues [⟨0, 5, " "⟩] = [] ∧ (" " : String) ≠ "" := by
  decide

/-- C5 (amended): every event whose whitespace-stripped text is non-empty
is converted to a cue with start `start_ticks / 1e7` seconds and end
`(start_ticks + max(duration_ticks, 1)) / 1e7` seconds, carrying the
stripped text; events whose stripped text is empty are dropped.  The spec
scenario (start 10,000,000, duration 15,000,000, text "Hello") yields the
cue (1.0 s, 2.5 s, "Hello"). -/
theorem tick_events_to_cues (events : List TickEvent) :
    (sentenceCues events).map
        (fun c => (ticksToSeconds c.1, ticksToSeconds c.2.1, c.2.2)) =
      events.filterMap (fun ev =>
        if pyStrip ev.text ≠ "" then
          some ((ev.offset : ℚ) / 10000000,
            ((ev.offset + max ev.duration 1 : ℤ) : ℚ) / 10000000, pyStrip ev.text)
        else none) ∧
    sentenceCues [⟨10000000, 15000000, "Hello"⟩] =
      [(10000000, 25000000, "Hello")] ∧
    ticksToSeconds 10000000 = 1 ∧ ticksToSeconds 25000000 = 5 / 2 := by
  refine ⟨?_, by decide, by norm_num [ticksToSeconds], by norm_num [ticksToSeconds]⟩
  have key : ∀ (l : List TickEvent) (acc : List (ℤ × ℤ × String)),
      l.foldl
          (fun acc ev =>
            if pyStrip ev.text ≠ "" then
              acc ++ [(ev.offset, ev.offset + max ev.duration 1, pyStrip ev.text)]
            else acc)
          acc
        = acc ++ l.filterMap (fun ev =>
            if pyStrip ev.text ≠ "" then
              some (ev.offset, ev.offset + max ev.duration 1, pyStrip ev.text)
            else none) := by
    intro l
    induction l with
    | nil => intro acc; simp
    | cons ev l ih =>
      intro acc
      rw [List.foldl_cons, List.filterMap_cons]
      by_cases h : pyStrip ev.text ≠ ""
      · rw [if_pos h, if_pos h, ih]
        simp
      · rw [if_neg h, if_neg h, ih]
  unfold sentenceCues
  rw [key, List.nil_append, List.map_filterMap]
  apply List.filterMap_congr
  intro ev _
  by_cases h : pyStrip ev.text ≠ "" <;> simp [h, ticksToSeconds]

/-- C5 witness: the spec's "Hello" scenario, through the amended
theorem. -/
theorem tick_events_to_cues_witness :
    sentenceCues [⟨10000000, 15000000, "Hello"⟩] =
      [(10000000, 25000000, "Hello")] :=
  (tick_events_to_cues []).2.1

/-- C3: each image whose fetch raises is skipped — the run proceeds, and
it fails with "No images to build video" exactly when zero images survive,
in which case no render plan is produced; otherwise the plan is built from
the surviving images. -/
theorem asset_failures_skipped (fetch : String → Option String)
    (hero : String) (photos : List String) (srtPath : String)
    (music logo showCaptions srtExists : Bool) :
    (assembleSlideshow fetch hero photos srtPath music logo showCaptions srtExists
        = Except.error "No images to build video"
      ↔ downloadImages fetch hero photos = []) ∧
    ((∀ u ∈ imageCandidates hero photos, fetch u = none) →
      downloadImages fetch hero photos = []) ∧
    (downloadImages fetch hero photos ≠ [] →
      assembleSlideshow fetch hero photos srtPath music logo showCaptions srtExists
        = Except.ok (buildSlideshowPlan (downloadImages fetch hero photos).length
            srtPath music logo showCaptions srtExists)) ∧
    (∀ plan,
      assembleSlideshow fetch hero photos srtPath music logo showCaptions srtExists
          = Except.ok plan →
        downloadImages fetch hero photos ≠ []) := by
  refine ⟨?_, ?_, ?_, ?_⟩
  · unfold assembleSlideshow
    by_cases h : downloadImages fetch hero photos = [] <;> simp [h]
  · intro hall
    unfold downloadImages
    exact List.filterMap_eq_nil_iff.mpr hall
  · intro hne
    unfold assembleSlideshow
    rw [if_neg hne]
  · intro plan hok hnil
    unfold assembleSlideshow at hok
    rw [if_pos hnil] at hok
    exact Except.noConfusion hok

/-- C3 witness: one failing fetch among two candidates is skipped, the
plan is built from the single survivor; and a run where every fetch fails
reports the error. -/
theorem asset_failures_skipped_witness :
    downloadImages (fun u => if u = "ok" then some "frame_1.png" else none)
        "bad" ["bad", "ok"] ≠ [] ∧
    assembleSlideshow (fun u => if u = "ok" then some "frame_1.png" else none)
        "bad" ["bad", "ok"] "output/voice.srt" true true false false
      = Except.ok (buildSlideshowPlan 1 "output/voice.srt" true true false false) ∧
    assembleSlideshow (fun _ => none) "bad" ["bad", "ok"] "output/voice.srt"
        true true false false = Except.error "No images to build video" := by
  have h1 := (asset_failures_skipped
    (fun u => if u = "ok" then some "frame_1.png" else none)
    "bad" ["bad", "ok"] "output/voice.srt" true true false false).2.2.1 (by decide)
  have h2 := (asset_failures_skipped (fun _ => none)
    "bad" ["bad", "ok"] "output/voice.srt" true true false false).1.mpr (by decide)
  exact ⟨by decide, h1, h2⟩

/-- C8 counterexample: with captions enabled and the cue-source file
missing, the caption branch of `build_slideshow_ffmpeg` (lines 526–540)
emits no warning at all, refuting the claim's warning clause. -/
theorem caption_no_warning_counterexample :
    ¬ captionClaimAt 1 "output/voice.srt" false false true false ∧
    (buildSlideshowPlan 1 "output/voice.srt" false false true false).warnings = [] := by
  constructor
  · intro hcl
    exact hcl.2 rfl rfl rfl
  · rfl

/-- C8 (amended): a subtitle-burn node is inserted, directly after the
concat node, if and only if captions are enabled and a usable cue source
exists; when captions are enabled but the cue source is missing, no burn
node appears, the concat stream passes the caption stage unmodified, the
plan is still produced, and the omission is silent — no warning is
surfaced. -/
theorem caption_burn_iff (n : ℕ) (srtPath : String)
    (music logo showCaptions srtExists : Bool) :
    (VNode.subtitleBurn srtPath
        ∈ (buildSlideshowPlan n srtPath music logo showCaptions srtExists).vnodes
      ↔ showCaptions = true ∧ srtExists = true) ∧
    (showCaptions = true → srtExists = true →
      ∃ tail, (buildSlideshowPlan n srtPath music logo showCaptions srtExists).vnodes
        = (List.range n).map VNode.scalePad
            ++ VNode.concat n :: VNode.subtitleBurn srtPath :: tail) ∧
    (showCaptions = true → srtExists = false →
      (∀ s, VNode.subtitleBurn s
          ∉ (buildSlideshowPlan n srtPath music logo showCaptions srtExists).vnodes) ∧
      (buildSlideshowPlan n srtPath music logo showCaptions srtExists).vLabel
        = (if logo then "[vlogo]" else "[vout]")) ∧
    (buildSlideshowPlan n srtPath music logo showCaptions srtExists).warnings = [] := by
  refine ⟨?_, ?_, ?_, rfl⟩
  · cases showCaptions <;> cases srtExists <;> cases logo <;>
      simp [buildSlideshowPlan]
  · intro hc hs
    subst hc; subst hs
    cases logo
    · exact ⟨[], by simp [buildSlideshowPlan, List.append_assoc]⟩
    · exact ⟨[VNode.logoScale (logoIdx n music), VNode.logoOverlay],
        by simp [buildSlideshowPlan, List.append_assoc]⟩
  · intro hc hs
    subst hc; subst hs
    cases logo <;> simp [buildSlideshowPlan]

/-- C8 witness: with two images, music, captions enabled and the cue file
present, the burn node sits directly after the concat node. -/
theorem caption_burn_iff_witness :
    VNode.subtitleBurn "output/voice.srt"
        ∈ (buildSlideshowPlan 2 "output/voice.srt" true false true true).vnodes ∧
    ∃ tail, (buildSlideshowPlan 2 "output/voice.srt" true false true true).vnodes
      = (List.range 2).map VNode.scalePad
          ++ VNode.concat 2 :: VNode.subtitleBurn "output/voice.srt" :: tail :=
  ⟨(caption_burn_iff 2 "output/voice.srt" true false true true).1.mpr ⟨rfl, rfl⟩,
    (caption_burn_iff 2 "output/voice.srt" true false true true).2.1 rfl rfl⟩

/-- Invariant of the thumbnail wrap loop (lines 401–406): every flushed
line is a space-join of a sublist of the title's words and is within the
width budget unless it is empty or a single word; the pending line is a
sublist of the words consumed so far. -/
theorem wrap_fold_invariant (measure : String → ℚ) (ws : List String) :
    ∀ (l done : List String) (st : List String × List String),
      done ++ l = ws →
      (∀ ℓ ∈ st.1,
        (∃ cs, cs.Sublist ws ∧ ℓ = joinSp cs) ∧
        (measure ℓ ≤ thumbMaxW ∨ ℓ = "" ∨ ℓ ∈ ws)) →
      st.2.Sublist done →
      (st.2 = [] ∨ measure (joinSp st.2) ≤ thumbMaxW ∨ ∃ w ∈ done, st.2 = [w]) →
      (∀ ℓ ∈ (l.foldl (wrapStep measure) st).1,
        (∃ cs, cs.Sublist ws ∧ ℓ = joinSp cs) ∧
        (measure ℓ ≤ thumbMaxW ∨ ℓ = "" ∨ ℓ ∈ ws)) ∧
      (l.foldl (wrapStep measure) st).2.Sublist ws ∧
      ((l.foldl (wrapStep measure) st).2 = [] ∨
        measure (joinSp (l.foldl (wrapStep measure) st).2) ≤ thumbMaxW ∨
        ∃ w ∈ ws, (l.foldl (wrapStep measure) st).2 = [w]) := by
  intro l
  induction l with
  | nil =>
    intro done st hdone hlines hcur hcurw
    rw [List.foldl_nil]
    have hde : done = ws := by simpa using hdone
    subst hde
    refine ⟨hlines, hcur, hcurw⟩
  | cons w l ih =>
    intro done st hdone hlines hcur hcurw
    rw [List.foldl_cons]
    have hdone' : (done ++ [w]) ++ l = ws := by
      rw [List.append_assoc, List.singleton_append]
      exact hdone
    have hdsub : done.Sublist ws := by
      refine List.IsPrefix.sublist ⟨w :: l, hdone⟩
    unfold wrapStep
    by_cases hb : measure (joinSp (st.2 ++ [w])) ≤ thumbMaxW
    · rw [if_pos hb]
      refine ih (done ++ [w]) _ hdone' hlines (hcur.append (List.Sublist.refl [w])) ?_
      exact Or.inr (Or.inl hb)
    · rw [if_neg hb]
      refine ih (done ++ [w]) _ hdone' ?_ ?_ ?_
      · intro ℓ hℓ
        rcases List.mem_append.mp hℓ with h | h
        · exact hlines ℓ h
        · have hℓe : ℓ = joinSp st.2 := List.mem_singleton.mp h
          subst hℓe
          refine ⟨⟨st.2, hcur.trans hdsub, rfl⟩, ?_⟩
          rcases hcurw with hnil | hle | ⟨x, hx, hst⟩
          · rw [hnil]
            exact Or.inr (Or.inl rfl)
          · exact Or.inl hle
          · rw [hst]
            exact Or.inr (Or.inr (hdsub.subset hx))
      · exact (List.nil_sublist done).append (List.Sublist.refl [w])
      · exact Or.inr (Or.inr ⟨w, List.mem_append_right done (List.mem_singleton.mpr rfl), rfl⟩)

/-- C9 counterexample: a title that is one 6-character word measures 1200
pixels under `wideMeasure`, exceeding 92% of the 1280-pixel canvas width
(1177.6), yet the greedy wrap emits it as a line (preceded by a spurious
empty line), refuting the claim that every emitted line fits the budget. -/
theorem wrap_width_counterexample :
    thumbWrap wideMeasure "aaaaaa" = ["", "aaaaaa"] ∧
    "aaaaaa" ∈ thumbWrap wideMeasure "aaaaaa" ∧
    ¬ (wideMeasure "aaaaaa" ≤ 92 / 100 * 1280) := by
  have h1 : thumbWrap wideMeasure "aaaaaa" = ["", "aaaaaa"] := by decide
  refine ⟨h1, by rw [h1]; decide, ?_⟩
  have h6 : wideMeasure "aaaaaa" = ((1200 : ℕ) : ℚ) := rfl
  rw [h6]
  norm_num

/-- C9 (amended): the thumbnail word-wrap emits at most 3 lines, each
emitted line is a space-join of an in-order selection of the title's words
(words beyond the third line are dropped, nothing is elided in), and each
emitted line's measured width is within 92% of the canvas width unless the
line is empty or is a single word that alone exceeds the budget. -/
theorem thumb_wrap_lines (measure : String → ℚ) (title : String) :
    (thumbWrap measure title).length ≤ 3 ∧
    ∀ ℓ ∈ thumbWrap measure title,
      (∃ cs, cs.Sublist (pySplitWs title) ∧ ℓ = joinSp cs) ∧
      (measure ℓ ≤ thumbMaxW ∨ ℓ = "" ∨ ℓ ∈ pySplitWs title) := by
  obtain ⟨hlines, hsub, hw⟩ := wrap_fold_invariant measure (pySplitWs title)
    (pySplitWs title) [] ([], []) (by simp) (by simp) (by simp) (Or.inl rfl)
  unfold thumbWrap
  constructor
  · rw [List.length_take]
    exact min_le_left 3 _
  · intro ℓ hℓ
    have hℓ' := List.mem_of_mem_take hℓ
    set r := (pySplitWs title).foldl (wrapStep measure) ([], []) with hr
    by_cases hc : r.2 = []
    · rw [if_neg (by simp [hc])] at hℓ'
      · exact hlines ℓ hℓ'
    · rw [if_pos hc] at hℓ'
      rcases List.mem_append.mp hℓ' with h | h
      · exact hlines ℓ h
      · have hℓe : ℓ = joinSp r.2 := List.mem_singleton.mp h
        subst hℓe
        refine ⟨⟨r.2, hsub, rfl⟩, ?_⟩
        rcases hw with hnil | hle | ⟨x, hx, hst⟩
        · exact absurd hnil hc
        · exact Or.inl hle
        · rw [hst]
          exact Or.inr (Or.inr hx)

/-- C9 witness: the amended theorem applied to the counterexample's
configuration. -/
theorem thumb_wrap_lines_witness :
    (thumbWrap wideMeasure "aaaaaa").length ≤ 3 :=
  (thumb_wrap_lines wideMeasure "aaaaaa").1

/-! ## Lemmas for the block-subtitle round trip (C6) -/

/-- A string all of whose characters are Python whitespace strips to
empty, and conversely. -/
theorem pyStrip_all_ws {s : String} (h : pyStrip s = "") :
    ∀ c ∈ s.data, isPyWs c = true := by
  have h2 : ((s.data.dropWhile isPyWs).reverse.dropWhile isPyWs).reverse = [] :=
    congrArg String.data h
  rw [List.reverse_eq_nil_iff] at h2
  have h3 := List.dropWhile_eq_nil_iff.mp h2
  intro c hc
  rw [← List.takeWhile_append_dropWhile (p := isPyWs) (l := s.data)] at hc
  rcases List.mem_append.mp hc with h4 | h4
  · exact List.mem_takeWhile_imp h4
  · exact h3 c (List.mem_reverse.mpr h4)

/-- A string containing a non-whitespace character does not strip to
empty. -/
theorem pyStrip_ne_of_mem {s : String} {c : Char} (hc : c ∈ s.data)
    (hw : isPyWs c = false) : pyStrip s ≠ "" := by
  intro h
  rw [pyStrip_all_ws h c hc] at hw
  exact Bool.noConfusion hw

/-- Whitespace characters are not digits. -/
theorem ws_not_digit {c : Char} (h : isPyWs c = true) : c.isDigit = false := by
  have hc : ((((c = ' ' ∨ c = '\t') ∨ c = '\n') ∨ c = '\r') ∨ c = '\x0b') ∨ c = '\x0c' := by
    simpa [isPyWs] using h
  rcases hc with ((((rfl | rfl) | rfl) | rfl) | rfl) | rfl <;> decide

/-- Digit characters are not whitespace. -/
theorem digit_not_ws {c : Char} (h : c.isDigit = true) : isPyWs c = false := by
  cases hw : isPyWs c
  · rfl
  · rw [ws_not_digit hw] at h
    exact Bool.noConfusion h

/-- Digit characters are unchanged by the `.`→`,` replacement. -/
theorem fixChar_digit {c : Char} (h : c.isDigit = true) : fixChar c = c := by
  unfold fixChar
  rw [if_neg]
  intro hc
  subst hc
  exact absurd h (by decide)

/-- A run of digits is unchanged by the `.`→`,` replacement. -/
theorem map_fixChar_digits {ds : List Char} (h : ∀ c ∈ ds, c.isDigit = true) :
    ds.map fixChar = ds := by
  induction ds with
  | nil => rfl
  | cons c cs ih =>
    rw [List.map_cons, fixChar_digit (h c (List.mem_cons_self c cs)),
      ih fun x hx => h x (List.mem_cons_of_mem c hx)]

/-- The decimal digits of a natural number are nonempty. -/
theorem natDigitsChars_ne_nil (n : ℕ) : natDigitsChars n ≠ [] := by
  unfold natDigitsChars
  split
  · simp
  · simp

/-- Digit characters of `Nat.digitChar` below 10 are decimal digits. -/
theorem digitChar_isDigit (d : ℕ) (h : d < 10) : (Nat.digitChar d).isDigit = true := by
  interval_cases d <;> decide

/-- Every character of `natDigitsChars n` is a decimal digit. -/
theorem natDigitsChars_digit (n : ℕ) : ∀ c ∈ natDigitsChars n, c.isDigit = true := by
  induction n using natDigitsChars.induct with
  | case1 n h =>
    rw [natDigitsChars, dif_pos h]
    intro c hc
    rw [List.mem_singleton] at hc
    subst hc
    exact digitChar_isDigit n h
  | case2 n h ih =>
    rw [natDigitsChars, dif_neg h]
    intro c hc
    rcases List.mem_append.mp hc with h1 | h1
    · exact ih c h1
    · rw [List.mem_singleton] at h1
      subst h1
      exact digitChar_isDigit _ (Nat.mod_lt _ (by omega))

/-- The textual index `str(idx)` is not blank. -/
theorem natToStr_ne_blank (n : ℕ) : pyStrip (natToStr n) ≠ "" := by
  cases h : natDigitsChars n with
  | nil => exact absurd h (natDigitsChars_ne_nil n)
  | cons c cs =>
    refine pyStrip_ne_of_mem (c := c) ?_ ?_
    · show c ∈ natDigitsChars n
      rw [h]
      exact List.mem_cons_self c cs
    · exact digit_not_ws (natDigitsChars_digit n c (by rw [h]; exact List.mem_cons_self c cs))

/-- Folding the block splitter over non-blank lines only extends the
current buffer. -/
theorem foldl_split_nonblank :
    ∀ (b : List String) (E : List (List String)) (buf : List String),
      (∀ ln ∈ b, pyStrip ln ≠ "") →
      List.foldl splitBlocksStep (E, buf) b = (E, buf ++ b) := by
  intro b
  induction b with
  | nil =>
    intro E buf _
    simp
  | cons ln b ih =>
    intro E buf hl
    rw [List.foldl_cons]
    have hstep : splitBlocksStep (E, buf) ln = (E, buf ++ [ln]) := by
      unfold splitBlocksStep
      rw [if_neg]
      intro hcontra
      exact hl ln (List.mem_cons_self ln b) hcontra.1
    rw [hstep, ih E (buf ++ [ln]) fun x hx => hl x (List.mem_cons_of_mem ln hx)]
    simp

/-- The block splitter recovers blocks laid out with one blank line after
each, provided every block is nonempty and has only non-blank lines. -/
theorem splitBlocks_blockJoin :
    ∀ (bs : List (List String)),
      (∀ b ∈ bs, b ≠ [] ∧ ∀ ln ∈ b, pyStrip ln ≠ "") →
      splitBlocks (blockJoin bs) = bs := by
  have aux : ∀ (bs : List (List String)) (E : List (List String)),
      (∀ b ∈ bs, b ≠ [] ∧ ∀ ln ∈ b, pyStrip ln ≠ "") →
      List.foldl splitBlocksStep (E, []) (blockJoin bs) = (E ++ bs, []) := by
    intro bs
    induction bs with
    | nil =>
      intro E _
      simp [blockJoin]
    | cons b bs ih =>
      intro E hwf
      obtain ⟨hb, hlines⟩ := hwf b (List.mem_cons_self b bs)
      have hblock : blockJoin (b :: bs) = (b ++ [""]) ++ blockJoin bs := by
        simp [blockJoin]
      rw [hblock, List.foldl_append, List.foldl_append,
        foldl_split_nonblank b E [] hlines]
      have hstep : List.foldl splitBlocksStep (E, [] ++ b) [""] = (E ++ [b], []) := by
        rw [List.nil_append, List.foldl_cons, List.foldl_nil]
        unfold splitBlocksStep
        rw [if_pos ⟨rfl, hb⟩]
      rw [hstep, ih (E ++ [b]) fun x hx => hwf x (List.mem_cons_of_mem b hx)]
      simp
  intro bs hwf
  unfold splitBlocks
  rw [aux bs [] hwf]
  simp

/-- Maximal munch on a digit run followed by a non-digit head (or by
nothing): `takeWhile`/`dropWhile` split exactly at the run's end. -/
theorem takeWhile_digits {ds rest : List Char} (hd : ∀ c ∈ ds, c.isDigit = true)
    (hr : ∀ c, rest.head? = some c → c.isDigit = false) :
    (ds ++ rest).takeWhile Char.isDigit = ds ∧
    (ds ++ rest).dropWhile Char.isDigit = rest := by
  induction ds with
  | nil =>
    cases rest with
    | nil => simp
    | cons c cs =>
      have hcd := hr c rfl
      simp [List.takeWhile_cons, List.dropWhile_cons, hcd]
  | cons d ds ih =>
    have hdd := hd d (List.mem_cons_self d ds)
    obtain ⟨h1, h2⟩ := ih fun c hc => hd c (List.mem_cons_of_mem d hc)
    rw [List.cons_append]
    constructor
    · rw [List.takeWhile_cons, if_pos hdd, h1]
    · rw [List.dropWhile_cons, if_pos hdd, h2]

/-- `scanDigits` on a nonempty digit run followed by a non-digit head. -/
theorem scanDigits_exact {ds rest : List Char} (hne : ds ≠ [])
    (hd : ∀ c ∈ ds, c.isDigit = true)
    (hr : ∀ c, rest.head? = some c → c.isDigit = false) :
    scanDigits (ds ++ rest) = some (ds, rest) := by
  obtain ⟨h1, h2⟩ := takeWhile_digits hd hr
  show (if (ds ++ rest).takeWhile Char.isDigit = [] then none
    else some ((ds ++ rest).takeWhile Char.isDigit, (ds ++ rest).dropWhile Char.isDigit))
    = some (ds, rest)
  rw [h1, h2, if_neg hne]

/-- `scanSep` consumes exactly its separator. -/
theorem scanSep_cons {sep : Char} (r : List Char) : scanSep sep (sep :: r) = some r := by
  simp [scanSep]

/-- Helper: the head of a cons list is its first element. -/
theorem headNotDigit_cons {c : Char} (hc : c.isDigit = false) (l : List Char) :
    ∀ x, (c :: l).head? = some x → x.isDigit = false := by
  intro x hx
  rw [List.head?_cons] at hx
  injection hx with hx
  subst hx
  exact hc

/-- Helper: the empty list has no head. -/
theorem headNotDigit_nil : ∀ x, ([] : List Char).head? = some x → x.isDigit = false := by
  intro x hx
  exact absurd hx (by simp)

/-- The scanner recognises a rendered timestamp exactly, leaving the
rest untouched, whenever the rest does not start with a digit. -/
theorem scanTsAt_render {t : VttTs} (hwf : t.wf) {sep : Char}
    (hsep : sep.isDigit = false) {rest : List Char}
    (hr : ∀ c, rest.head? = some c → c.isDigit = false) :
    scanTsAt sep (t.renderChars sep ++ rest) = some (t, rest) := by
  obtain ⟨hhd, hmd, hsd, hms, h1, h2, h3, h4⟩ := hwf
  have hmdne : t.md ≠ [] := by
    intro hh
    rw [hh] at hmd
    exact absurd hmd (by decide)
  have hsdne : t.sd ≠ [] := by
    intro hh
    rw [hh] at hsd
    exact absurd hsd (by decide)
  have hmsne : t.msd ≠ [] := by
    intro hh
    rw [hh] at hms
    exact absurd hms (by decide)
  have e1 : t.renderChars sep ++ rest
      = t.hd ++ (':' :: (t.md ++ (':' :: (t.sd ++ (sep :: (t.msd ++ rest)))))) := by
    unfold VttTs.renderChars
    simp [List.append_assoc]
  rw [e1]
  unfold scanTsAt
  rw [scanDigits_exact hhd h1 (headNotDigit_cons (by decide) _)]
  simp only [Option.some_bind]
  rw [scanSep_cons]
  simp only [Option.some_bind]
  rw [scanDigits_exact hmdne h2 (headNotDigit_cons (by decide) _)]
  simp only [Option.some_bind]
  rw [scanSep_cons]
  simp only [Option.some_bind]
  rw [scanDigits_exact hsdne h3 (headNotDigit_cons hsep _)]
  simp only [Option.some_bind]
  rw [scanSep_cons]
  simp only [Option.some_bind]
  rw [scanDigits_exact hmsne h4 hr]
  simp only [Option.some_bind]

/-- Dropping leading whitespace steps over a space. -/
theorem dropWhile_ws_space (l : List Char) :
    (' ' :: l).dropWhile isPyWs = l.dropWhile isPyWs := by
  rw [List.dropWhile_cons, if_pos (by decide)]

/-- Dropping leading whitespace stops at a non-whitespace head. -/
theorem dropWhile_ws_nonws {c : Char} (h : isPyWs c = false) (l : List Char) :
    (c :: l).dropWhile isPyWs = c :: l := by
  rw [List.dropWhile_cons, if_neg (by simp [h])]

/-- A rendered timestamp starts with a digit character. -/
theorem renderChars_head_digit {t : VttTs} (hwf : t.wf) (sep : Char) :
    ∃ c cs, t.renderChars sep = c :: cs ∧ c.isDigit = true := by
  obtain ⟨hhd, _, _, _, h1, _, _, _⟩ := hwf
  cases hh : t.hd with
  | nil => exact absurd hh hhd
  | cons c cs =>
    refine ⟨c, cs ++ (':' :: t.md ++ ':' :: t.sd ++ sep :: t.msd), ?_, ?_⟩
    · unfold VttTs.renderChars
      rw [hh]
      simp [List.append_assoc]
    · exact h1 c (by rw [hh]; exact List.mem_cons_self c cs)

/-- The scanner recognises the full rendered time-range line. -/
theorem scanPairAt_pair {t1 t2 : VttTs} (h1 : t1.wf) (h2 : t2.wf) {sep : Char}
    (hsep : sep.isDigit = false) :
    scanPairAt sep
        (t1.renderChars sep ++ ' ' :: '-' :: '-' :: '>' :: ' ' :: t2.renderChars sep)
      = some (t1, t2, []) := by
  unfold scanPairAt
  rw [scanTsAt_render h1 hsep (headNotDigit_cons (by decide) _)]
  simp only [Option.some_bind]
  rw [dropWhile_ws_space, dropWhile_ws_nonws (by decide)]
  rw [show scanArrow ('-' :: '-' :: '>' :: ' ' :: t2.renderChars sep)
    = some (' ' :: t2.renderChars sep) from rfl]
  simp only [Option.some_bind]
  rw [dropWhile_ws_space]
  obtain ⟨c, cs, hcs, hcd⟩ := renderChars_head_digit h2 sep
  rw [hcs, dropWhile_ws_nonws (digit_not_ws hcd), ← hcs,
    ← List.append_nil (t2.renderChars sep), scanTsAt_render h2 hsep headNotDigit_nil]
  simp only [Option.some_bind]

/-- A successful scan at the head makes the search succeed with the same
groups. -/
theorem searchPair_of_scanPairAt {sep : Char} {cs : List Char} {t1 t2 : VttTs}
    {r : List Char} (hne : cs ≠ []) (h : scanPairAt sep cs = some (t1, t2, r)) :
    searchPair sep cs = some (t1, t2) := by
  cases cs with
  | nil => exact absurd rfl hne
  | cons c cs =>
    unfold searchPair
    rw [h]

/-- `ts_re.search` on a rendered time-range line finds the two rendered
timestamps. -/
theorem searchPair_render {t1 t2 : VttTs} (h1 : t1.wf) (h2 : t2.wf) {sep : Char}
    (hsep : sep.isDigit = false) :
    searchPair sep
        (t1.renderChars sep ++ ' ' :: '-' :: '-' :: '>' :: ' ' :: t2.renderChars sep)
      = some (t1, t2) := by
  obtain ⟨c, cs, hcs, _⟩ := renderChars_head_digit h1 sep
  refine searchPair_of_scanPairAt ?_ (scanPairAt_pair h1 h2 hsep)
  rw [hcs]
  simp

/-- `ts_re.search` finds nothing in a line of bare digits (such as the
SRT sequence number emitted by the converter). -/
theorem searchPair_all_digit {sep : Char} :
    ∀ cs : List Char, (∀ c ∈ cs, c.isDigit = true) → searchPair sep cs = none := by
  intro cs
  induction cs with
  | nil => intro _; rfl
  | cons c cs ih =>
    intro h
    have htake : (c :: cs).takeWhile Char.isDigit = c :: cs :=
      List.takeWhile_eq_self_iff.mpr h
    have hdrop : (c :: cs).dropWhile Char.isDigit = [] :=
      List.dropWhile_eq_nil_iff.mpr h
    have hscan : scanDigits (c :: cs) = some (c :: cs, []) := by
      show (if (c :: cs).takeWhile Char.isDigit = [] then none
        else some ((c :: cs).takeWhile Char.isDigit, (c :: cs).dropWhile Char.isDigit))
        = some (c :: cs, [])
      rw [htake, hdrop, if_neg (by simp)]
    have hpair : scanPairAt sep (c :: cs) = none := by
      unfold scanPairAt scanTsAt
      rw [hscan]
      simp only [Option.some_bind]
      rw [show scanSep ':' [] = none from rfl]
      simp only [Option.none_bind, Option.bind_none]
    unfold searchPair
    rw [hpair, ih fun x hx => h x (List.mem_cons_of_mem c hx)]

/-- `fix_ts` rewrites a rendered period timestamp to the comma one. -/
theorem fixTs_render {t : VttTs} (hwf : t.wf) :
    fixTs (t.render '.') = t.render ',' := by
  obtain ⟨_, _, _, _, h1, h2, h3, h4⟩ := hwf
  show (⟨(t.renderChars '.').map fixChar⟩ : String) = ⟨t.renderChars ','⟩
  congr 1
  unfold VttTs.renderChars
  simp [List.map_append, List.map_cons, map_fixChar_digits h1, map_fixChar_digits h2,
    map_fixChar_digits h3, map_fixChar_digits h4, fixChar]

/-- The characters of a rendered period-convention time-range line. -/
theorem tsLine_data (b : VttBlock) :
    (tsLine b).data
      = b.start.renderChars '.' ++ ' ' :: '-' :: '-' :: '>' :: ' ' :: b.stop.renderChars '.' := by
  unfold tsLine VttTs.render
  simp only [String.data_append, List.append_assoc]
  rfl

/-- The emitted comma-convention time-range line, in rendered form. -/
theorem commaTimes_eq {b : VttBlock} (hwf : b.wf) :
    commaTimes b = b.start.render ',' ++ " --> " ++ b.stop.render ',' := by
  unfold commaTimes
  rw [fixTs_render hwf.1, fixTs_render hwf.2.1]

/-- The characters of the emitted comma-convention time-range line. -/
theorem commaTimes_data {b : VttBlock} (hwf : b.wf) :
    (commaTimes b).data
      = b.start.renderChars ',' ++ ' ' :: '-' :: '-' :: '>' :: ' ' :: b.stop.renderChars ',' := by
  rw [commaTimes_eq hwf]
  unfold VttTs.render
  simp only [String.data_append, List.append_assoc]
  rfl

/-- A list is a prefix of itself followed by anything. -/
theorem isPrefixOf_self_append : ∀ (l t : List Char), l.isPrefixOf (l ++ t) = true := by
  intro l
  induction l with
  | nil =>
    intro t
    cases t <;> rfl
  | cons c l ih =>
    intro t
    show (c :: l).isPrefixOf (c :: (l ++ t)) = true
    simp [List.isPrefixOf, ih]

/-- Containment holds when the pattern is a prefix. -/
theorem listContainsSub_of_isPrefixOf {sub l : List Char}
    (h : sub.isPrefixOf l = true) : listContainsSub sub l = true := by
  cases l with
  | nil =>
    unfold listContainsSub
    exact h
  | cons c cs =>
    unfold listContainsSub
    rw [h]
    rfl

/-- Containment holds whenever the pattern occurs anywhere. -/
theorem listContainsSub_append (sub pre post : List Char) :
    listContainsSub sub (pre ++ sub ++ post) = true := by
  induction pre with
  | nil =>
    rw [List.nil_append]
    exact listContainsSub_of_isPrefixOf (isPrefixOf_self_append sub post)
  | cons c pre ih =>
    rw [List.cons_append, List.cons_append]
    unfold listContainsSub
    rw [ih]
    simp

/-- The rendered time-range line contains the arrow. -/
theorem pyContains_tsLine (b : VttBlock) : pyContains (tsLine b) "-->" = true := by
  unfold pyContains
  rw [tsLine_data]
  have h := listContainsSub_append (("-->" : String).data)
    (b.start.renderChars '.' ++ [' ']) (' ' :: b.stop.renderChars '.')
  simpa [List.append_assoc, show ("-->" : String).data = ['-', '-', '>'] from rfl] using h

/-- Scanning good text lines only collects them, leaving the time range
unchanged. -/
theorem vtt_text_fold :
    ∀ (ls : List String) (t : Option String) (acc : List String),
      (∀ ln ∈ ls, goodTextLine ln) →
      List.foldl vttChunkStep (t, acc) ls = (t, acc ++ ls) := by
  intro ls
  induction ls with
  | nil =>
    intro t acc _
    simp
  | cons ln ls ih =>
    intro t acc hgood
    obtain ⟨hnb, hnc, hnw⟩ := hgood ln (List.mem_cons_self ln ls)
    have hlnne : ln ≠ "" := by
      intro he
      rw [he] at hnb
      exact hnb rfl
    rw [List.foldl_cons]
    have hstep : vttChunkStep (t, acc) ln = (t, acc ++ [ln]) := by
      unfold vttChunkStep
      rw [hnc, if_neg Bool.false_ne_true, if_pos ⟨hlnne, hnw⟩]
    rw [hstep, ih t (acc ++ [ln]) fun x hx => hgood x (List.mem_cons_of_mem ln hx)]
    simp

/-- Lines 289–306 on one well-formed rendered block: the times line is
recognised and rewritten to the comma convention, the text lines are
collected verbatim. -/
theorem vttChunkParse_renderBlock {b : VttBlock} (hwf : b.wf) :
    vttChunkParse (renderBlock b) = some (commaTimes b, b.text) := by
  obtain ⟨h1, h2, hne, htext⟩ := hwf
  have hstep : vttChunkStep (none, []) (tsLine b) = (some (commaTimes b), []) := by
    unfold vttChunkStep
    rw [pyContains_tsLine b, if_pos rfl, tsLine_data,
      searchPair_render h1 h2 (by decide)]
    rfl
  unfold vttChunkParse renderBlock
  rw [List.foldl_cons, hstep, vtt_text_fold b.text (some (commaTimes b)) [] htext,
    List.nil_append]
  simp [hne]

/-- The conversion fold emits exactly the numbered SRT chunks. -/
theorem vttToSrt_fold :
    ∀ (bs : List VttBlock), wellFormedVtt bs →
      ∀ (i : ℕ) (acc : List String),
        List.foldl vttToSrtStep (i, acc) (bs.map renderBlock)
          = (i + bs.length, acc ++ blockJoin (srtChunksFrom i bs)) := by
  intro bs
  induction bs with
  | nil =>
    intro _ i acc
    simp [srtChunksFrom, blockJoin]
  | cons b bs ih =>
    intro hwf i acc
    rw [List.map_cons, List.foldl_cons]
    have hstep : vttToSrtStep (i, acc) (renderBlock b)
        = (i + 1, acc ++ [natToStr i, commaTimes b] ++ b.text ++ [""]) := by
      unfold vttToSrtStep
      rw [vttChunkParse_renderBlock (hwf b (List.mem_cons_self b bs))]
    rw [hstep, ih (fun x hx => hwf x (List.mem_cons_of_mem b hx)) (i + 1) _]
    have hbj : blockJoin (srtChunksFrom i (b :: bs))
        = ([natToStr i, commaTimes b] ++ b.text ++ [""])
            ++ blockJoin (srtChunksFrom (i + 1) bs) := by
      show blockJoin ((([natToStr i, commaTimes b] ++ b.text))
          :: srtChunksFrom (i + 1) bs) = _
      simp [blockJoin, List.append_assoc]
    rw [hbj, Prod.mk.injEq]
    refine ⟨by simp; omega, by simp [List.append_assoc]⟩

/-- A line whose time-range search fails is skipped by the SRT cue
finder. -/
theorem srtFindTime_cons_none {ln : String} {rest : List String}
    (h : searchPair ',' ln.data = none) :
    srtFindTime (ln :: rest) = srtFindTime rest := by
  show (match searchPair ',' ln.data with
    | some (t1, t2) => some (t1, t2, rest)
    | none => srtFindTime rest) = srtFindTime rest
  rw [h]

/-- A line whose time-range search succeeds stops the SRT cue finder. -/
theorem srtFindTime_cons_some {ln : String} {rest : List String} {t1 t2 : VttTs}
    (h : searchPair ',' ln.data = some (t1, t2)) :
    srtFindTime (ln :: rest) = some (t1, t2, rest) := by
  show (match searchPair ',' ln.data with
    | some (t1, t2) => some (t1, t2, rest)
    | none => srtFindTime rest) = some (t1, t2, rest)
  rw [h]

/-- On one emitted SRT chunk, the cue finder skips the index line, parses
the comma time-range line, and returns the text lines. -/
theorem srtFindTime_chunk {b : VttBlock} (hwf : b.wf) (i : ℕ) :
    srtFindTime ([natToStr i, commaTimes b] ++ b.text)
      = some (b.start, b.stop, b.text) := by
  have h1 : searchPair ',' (natToStr i).data = none :=
    searchPair_all_digit _ (natDigitsChars_digit i)
  have h2 : searchPair ',' (commaTimes b).data = some (b.start, b.stop) := by
    rw [commaTimes_data hwf]
    exact searchPair_render hwf.1 hwf.2.1 (by decide)
  show srtFindTime (natToStr i :: commaTimes b :: b.text) = _
  rw [srtFindTime_cons_none h1, srtFindTime_cons_some h2]

/-- The cue of one emitted SRT chunk is the block's cue. -/
theorem srtBlockCue_chunk {b : VttBlock} (hwf : b.wf) (i : ℕ) :
    srtBlockCue ([natToStr i, commaTimes b] ++ b.text) = some (cueOf b) := by
  unfold srtBlockCue
  rw [srtFindTime_chunk hwf i]
  simp [hwf.2.2.1, cueOf]

/-- Cue extraction over the emitted chunks recovers the blocks' cues. -/
theorem filterMap_srtChunks :
    ∀ (bs : List VttBlock), wellFormedVtt bs → ∀ i : ℕ,
      (srtChunksFrom i bs).filterMap srtBlockCue = bs.map cueOf := by
  intro bs
  induction bs with
  | nil =>
    intro _ _
    rfl
  | cons b bs ih =>
    intro hwf i
    show ((([natToStr i, commaTimes b] ++ b.text)) :: srtChunksFrom (i + 1) bs).filterMap
      srtBlockCue = _
    rw [List.filterMap_cons, srtBlockCue_chunk (hwf b (List.mem_cons_self b bs)) i,
      ih (fun x hx => hwf x (List.mem_cons_of_mem b hx)) (i + 1)]
    rfl

/-- The emitted comma time-range line is not blank. -/
theorem commaTimes_ne_blank {b : VttBlock} (hwf : b.wf) :
    pyStrip (commaTimes b) ≠ "" := by
  obtain ⟨c, cs, hcs, hcd⟩ := renderChars_head_digit hwf.1 ','
  refine pyStrip_ne_of_mem (c := c) ?_ (digit_not_ws hcd)
  show c ∈ (commaTimes b).data
  rw [commaTimes_data hwf, hcs, List.cons_append]
  exact List.mem_cons_self _ _

/-- The period time-range line is not blank. -/
theorem tsLine_ne_blank {b : VttBlock} (hwf : b.wf) :
    pyStrip (tsLine b) ≠ "" := by
  obtain ⟨c, cs, hcs, hcd⟩ := renderChars_head_digit hwf.1 '.'
  refine pyStrip_ne_of_mem (c := c) ?_ (digit_not_ws hcd)
  show c ∈ (tsLine b).data
  rw [tsLine_data, hcs, List.cons_append]
  exact List.mem_cons_self _ _

/-- Every emitted SRT chunk is nonempty with only non-blank lines. -/
theorem srtChunks_wf :
    ∀ (bs : List VttBlock), wellFormedVtt bs → ∀ (i : ℕ),
      ∀ ch ∈ srtChunksFrom i bs, ch ≠ [] ∧ ∀ ln ∈ ch, pyStrip ln ≠ "" := by
  intro bs
  induction bs with
  | nil =>
    intro _ i ch hch
    simp [srtChunksFrom] at hch
  | cons b bs ih =>
    intro hwf i ch hch
    have hb := hwf b (List.mem_cons_self b bs)
    rw [show srtChunksFrom i (b :: bs)
      = (([natToStr i, commaTimes b] ++ b.text)) :: srtChunksFrom (i + 1) bs from rfl] at hch
    rcases List.mem_cons.mp hch with rfl | h2
    · refine ⟨by simp, ?_⟩
      intro ln hln
      rcases List.mem_append.mp hln with h3 | h3
      · rcases List.mem_cons.mp h3 with rfl | h4
        · exact natToStr_ne_blank i
        · rw [List.mem_singleton] at h4
          subst h4
          exact commaTimes_ne_blank hb
      · exact (hb.2.2.2 ln h3).1
    · exact ih (fun x hx => hwf x (List.mem_cons_of_mem b hx)) (i + 1) ch h2

/-- C6: for every well-formed block-subtitle source (optional format
declaration, blocks of one `H:MM:SS.mmm --> H:MM:SS.mmm` line plus text
lines), converting with `vtt_to_srt` to the comma-decimal-separator
convention and extracting the cues back (per the spec's block parser)
preserves the cue count, every cue's start and end instants exactly (hence
to millisecond precision), and every cue's text lines verbatim. -/
theorem vtt_srt_roundtrip (header : Bool) (blocks : List VttBlock)
    (hwf : wellFormedVtt blocks) :
    srtCues (vttToSrt (renderVtt header blocks)) = blocks.map cueOf := by
  have hsplit1 : splitBlocks (renderVtt header blocks)
      = (if header then [["WEBVTT"]] else []) ++ blocks.map renderBlock := by
    unfold renderVtt
    apply splitBlocks_blockJoin
    intro bch hbch
    rcases List.mem_append.mp hbch with hh | hh
    · have hb : bch = ["WEBVTT"] := by
        cases header
        · simp at hh
        · simpa using hh
      subst hb
      refine ⟨by simp, ?_⟩
      intro ln hln
      rw [List.mem_singleton] at hln
      subst hln
      decide
    · obtain ⟨b, hb, rfl⟩ := List.mem_map.mp hh
      have hbw := hwf b hb
      refine ⟨by simp [renderBlock], ?_⟩
      intro ln hln
      rcases List.mem_cons.mp (by simpa [renderBlock] using hln) with rfl | h2
      · exact tsLine_ne_blank hbw
      · exact (hbw.2.2.2 ln h2).1
  have hh2 : List.foldl vttToSrtStep (1, ([] : List String))
      (if header then [["WEBVTT"]] else []) = (1, []) := by
    cases header
    · rfl
    · decide
  unfold vttToSrt
  rw [hsplit1, List.foldl_append, hh2, vttToSrt_fold blocks hwf 1 []]
  show (splitBlocks (blockJoin (srtChunksFrom 1 blocks))).filterMap srtBlockCue
    = blocks.map cueOf
  rw [splitBlocks_blockJoin _ (srtChunks_wf blocks hwf 1),
    filterMap_srtChunks blocks hwf 1]

/-- C6 witness: a one-cue source (00:00:01.000 → 00:00:02.500, "Hello")
with the format declaration round-trips through the converter. -/
theorem vtt_srt_roundtrip_witness :
    wellFormedVtt demoBlocks ∧
    srtCues (vttToSrt (renderVtt true demoBlocks)) = demoBlocks.map cueOf :=
  ⟨by decide, vtt_srt_roundtrip true demoBlocks (by decide)⟩

end RPS
